import Mathlib

/-!
Verification development for the tg-codex-gateway repository.

The subject program is `src/telegram_codex_gateway/cli.py` (with `src/bot.py`
holding an earlier, structurally identical variant of `append_log` and the
error path of `run_codex`).  The definitions below are a shallow embedding of
the program's pure core, translated function by function from the Python
source:

* filesystem paths are modelled lexically: an already-resolved absolute
  directory is a `List String` of components, and an externally supplied
  archive-entry path is an `EPath` (an absolute flag plus a component list, as
  produced by `pathlib`'s parsing, which drops empty and `.` components);
  `resolveFrom` models `Path.resolve()`'s lexical normalization of `..`
  (the extractors below create only regular files and directories, never
  symlinks, and the destination is a freshly created sandbox directory, so
  no symlink indirection can change the resolution; `Path.resolve()` has not
  raised `FileNotFoundError` since Python 3.6, so that handler is dead code);
* Python `str` values that are inspected character by character are modelled
  as `List Char` (a Python string is a sequence of code points);
* JSON values are the inductive `Json`, with Python `None` identified with
  `Json.null` (this is exactly how `json.loads` maps JSON null);
* the external `codex` subprocess is modelled by its observable outcome: an
  exit code, the per-line `json.loads` outcomes of its stdout (a `none` entry
  is a blank or unparseable line - both are skipped by `continue` in the
  source), and its stderr text;
* fallible code returns `Except`.
-/

/-! ### Lexical path model (cli.py lines 174-235) -/

/-- One component of an externally supplied path, after `pathlib` parsing:
either a `..` component or a normal name.  (`pathlib` drops `""` and `"."`
components when parsing, so they do not appear.) -/
inductive PComp where
  | up
  | name (s : String)
deriving DecidableEq

/-- An externally supplied path: `absolute` is true when the path starts with
`/` (in which case `pathlib`'s `/` join operator discards the left operand). -/
structure EPath where
  absolute : Bool
  comps : List PComp
deriving DecidableEq

/-- Boolean list-prefix test on resolved paths. -/
def isPrefixB : List String → List String → Bool
  | [], _ => true
  | _ :: _, [] => false
  | a :: as, b :: bs => a == b && isPrefixB as bs

/-- Lexical resolution of a component list against an accumulator, starting
from the filesystem root: a `..` removes the last accumulated component (at
the root, `/..` stays at `/`, as on POSIX). Models `Path.resolve()` in the
symlink-free sandbox. -/
def resolveFrom : List String → List PComp → List String
  | acc, [] => acc
  | acc, PComp.up :: cs => resolveFrom acc.dropLast cs
  | acc, PComp.name s :: cs => resolveFrom (acc ++ [s]) cs

/-- `dest / entry` (cli.py lines 189, 208): `pathlib` drops the left operand
when the right one is absolute. The result is a component list rooted at `/`. -/
def joined_comps (dest : List String) (e : EPath) : List PComp :=
  if e.absolute then e.comps else dest.map PComp.name ++ e.comps

/-- `base_resolved in target_resolved.parents`: base is a proper prefix of the
resolved target. -/
def in_parents (base t : List String) : Bool :=
  isPrefixB base t && decide (base.length < t.length)

/-- cli.py lines 174-180, `is_within_directory(base, target)`.  `base` is the
extraction destination, an existing absolute directory that is already in
resolved form (so `base.resolve() == base`); `target` is the joined component
list of `dest / member-name`. -/
def is_within_directory (base : List String) (target : List PComp) : Bool :=
  let t := resolveFrom [] target
  base == t || in_parents base t

/-- cli.py line 27: `MAX_EXTRACT_FILES = 2000`. -/
def MAX_EXTRACT_FILES : Nat := 2000

/-- cli.py line 24. -/
def MAX_PLAIN_MESSAGE_LENGTH : Nat := 3900

/-- cli.py line 25. -/
def MAX_MARKDOWN_MESSAGE_LENGTH : Nat := 3500

/-- One entry of a zip archive, as `zipfile.ZipFile.infolist()` exposes it to
`extract_zip`: its parsed filename and `info.is_dir()` (filename ends in `/`). -/
structure ZipEntry where
  filename : EPath
  is_dir : Bool
deriving DecidableEq

/-- What `tarfile` reports for a member: a regular file (`extractfile` returns
a stream; resolvable link members behave the same way), a directory, or
anything else - FIFO, device node, ... - for which `extractfile` returns
`None`. -/
inductive TarKind where
  | file
  | dir
  | other
deriving DecidableEq

/-- One member of a tar archive as `extract_tar` observes it. -/
structure TarMember where
  mname : EPath
  kind : TarKind
deriving DecidableEq

/-- The filesystem effect of one extraction run: `count` is the returned
counter of written regular files; `actions` records, in order, each
`mkdir`/file write the loop performed, as `(isDirCreation, resolvedPath)`
(the resolved location at which the write lands); `raised` is true when the
loop aborted with an exception instead of finishing. -/
structure ExtractOut where
  count : Nat
  actions : List (Bool × List String)
  raised : Bool
deriving DecidableEq

/-- Loop body of cli.py lines 183-199 (`extract_zip`), with the running
`count` made explicit.  An entry whose target fails `is_within_directory` is
skipped (`continue`); a directory entry is `mkdir`-ed without touching the
count; a file entry is streamed to disk and counted.  (The
`target.parent.mkdir(parents=True, exist_ok=True)` before a file write can
only create directories strictly between `dest` and the file's location:
every other syntactic ancestor of the target is an ancestor of `dest` and
already exists, so `exist_ok=True` makes it a no-op there.) -/
def extract_zip_go (dest : List String) (max_files : Nat) (count : Nat) :
    List ZipEntry → ExtractOut
  | [] => ⟨count, [], false⟩
  | e :: rest =>
    if max_files ≤ count then ⟨count, [], false⟩
    else
      let target := joined_comps dest e.filename
      if ¬ is_within_directory dest target then extract_zip_go dest max_files count rest
      else if e.is_dir then
        let r := extract_zip_go dest max_files count rest
        ⟨r.count, (true, resolveFrom [] target) :: r.actions, r.raised⟩
      else
        let r := extract_zip_go dest max_files (count + 1) rest
        ⟨r.count, (false, resolveFrom [] target) :: r.actions, r.raised⟩

/-- cli.py lines 183-199: `extract_zip(archive, dest, max_files)`, with the
archive abstracted to its entry list. -/
def extract_zip (dest : List String) (max_files : Nat) (entries : List ZipEntry) :
    ExtractOut :=
  extract_zip_go dest max_files 0 entries

/-- Loop body of cli.py lines 202-221 (`extract_tar`).  Same shape as the zip
loop except for the member-kind dispatch: for a member that is neither a
regular file nor a directory, `tf.extractfile(member)` returns `None`, and the
`with tf.extractfile(member) as src:` statement calls `__enter__` on that
`None` *before* the `if src is None` test can run, raising `AttributeError`
and aborting the extraction (`raised := true`); the `None` check on line 216
is unreachable. -/
def extract_tar_go (dest : List String) (max_files : Nat) (count : Nat) :
    List TarMember → ExtractOut
  | [] => ⟨count, [], false⟩
  | m :: rest =>
    if max_files ≤ count then ⟨count, [], false⟩
    else
      let target := joined_comps dest m.mname
      if ¬ is_within_directory dest target then extract_tar_go dest max_files count rest
      else
        match m.kind with
        | TarKind.dir =>
          let r := extract_tar_go dest max_files count rest
          ⟨r.count, (true, resolveFrom [] target) :: r.actions, r.raised⟩
        | TarKind.file =>
          let r := extract_tar_go dest max_files (count + 1) rest
          ⟨r.count, (false, resolveFrom [] target) :: r.actions, r.raised⟩
        | TarKind.other => ⟨count, [], true⟩

/-- cli.py lines 202-221: `extract_tar(archive, dest, max_files)`, with the
archive abstracted to its member list. -/
def extract_tar (dest : List String) (max_files : Nat) (members : List TarMember) :
    ExtractOut :=
  extract_tar_go dest max_files 0 members

/-! ### Archive-kind dispatch (cli.py lines 224-247) -/

/-- Search for `c` at an index below `n` in `l`, returning the highest such
index (scans from high to low).  Models `str.rfind` restricted to a prefix. -/
def rfindCharAux (c : Char) (l : List Char) : Nat → Option Nat
  | 0 => none
  | i + 1 => if l.getD i ' ' == c then some i else rfindCharAux c l i

/-- `s.rfind(c, 0, e)`: highest index `i < min e l.length` with `l[i] = c`. -/
def rfindChar (c : Char) (l : List Char) (e : Nat) : Option Nat :=
  rfindCharAux c l (min e l.length)

/-- `s.endswith(suffix)`, computed on the code-point lists. -/
def pyEndsWith (s suffix : String) : Bool :=
  let a := s.toList
  let b := suffix.toList
  decide (b.length ≤ a.length) && a.drop (a.length - b.length) == b

/-- `s[:-n]` for `n ≤ len(s)`, computed on the code-point list. -/
def pyDropRight (s : String) (n : Nat) : String :=
  String.mk (s.toList.take (s.toList.length - n))

/-- `s.split("/")` on the code-point list (`cur` holds the reversed current
part). -/
def splitSlashAux (cur : List Char) : List Char → List (List Char)
  | [] => [cur.reverse]
  | c :: cs =>
    if c = '/' then cur.reverse :: splitSlashAux [] cs
    else splitSlashAux (c :: cur) cs

/-- `pathlib`'s `.suffix` on a final path component: `i = name.rfind('.')`,
and the suffix is `name[i:]` when `0 < i < len(name) - 1`, else `""`. -/
def path_suffix (s : String) : String :=
  let cs := s.toList
  match rfindChar '.' cs cs.length with
  | some i => if 0 < i ∧ i + 1 < cs.length then String.mk (cs.drop i) else ""
  | none => ""

/-- Everything `handle_archive`/`extract_gzip` observe about the stored
upload: its (sanitized, slash-free) filename, the stdlib's two content
sniffs (`zipfile.is_zipfile`, `tarfile.is_tarfile` - both look at the bytes,
not the name), whether the content starts with the gzip magic (checked by
`gzip.open(...)` when it first reads), and the entry lists seen by the two
extractors when the respective sniff succeeds. -/
structure UploadedFile where
  fname : String
  is_zipfile : Bool
  is_tarfile : Bool
  gzip_magic : Bool
  zip_entries : List ZipEntry
  tar_members : List TarMember

/-- cli.py lines 224-235, `extract_gzip(archive, dest)`.  Returns `ok none`
where the source returns `None` (name-based rejection: no `.gz` suffix, or a
compound `.tar.gz`/`.tgz` name), `ok (some targetName)` when the source
decompresses `archive` into `dest/targetName` (`name[:-3]` with fallback
`"archive"`), and `error` when `gzip.open`/`copyfileobj` raise
`BadGzipFile` because the content does not start with the gzip magic - the
filename test runs first, the content is only consulted at decompression
time. -/
def extract_gzip (f : UploadedFile) : Except String (Option String) :=
  if path_suffix f.fname ≠ ".gz" then Except.ok none
  else if pyEndsWith f.fname ".tar.gz" || pyEndsWith f.fname ".tgz" then Except.ok none
  else
    let targetName := if pyDropRight f.fname 3 = "" then "archive" else pyDropRight f.fname 3
    if f.gzip_magic then Except.ok (some targetName) else Except.error "BadGzipFile"

/-- Outcome of `handle_archive`: which branch ran and what it returned.
`zipExtracted n`/`tarExtracted n` are the `return extract_...` counts,
`gzipExtracted t` is the `return 1` after a gzip decompression into `t`,
`plainFile` is the `return 0` (caller copies the file verbatim), and
`archiveError` is an exception escaping to the caller's handler. -/
inductive ArchiveOutcome where
  | zipExtracted (count : Nat)
  | tarExtracted (count : Nat)
  | gzipExtracted (target : String)
  | plainFile
  | archiveError (msg : String)
deriving DecidableEq

/-- cli.py lines 238-247, `handle_archive(file_path, sandbox)`, with the
sandbox's `work` directory passed as `dest`. -/
def handle_archive (f : UploadedFile) (dest : List String) : ArchiveOutcome :=
  if f.is_zipfile then
    ArchiveOutcome.zipExtracted (extract_zip dest MAX_EXTRACT_FILES f.zip_entries).count
  else if f.is_tarfile then
    let r := extract_tar dest MAX_EXTRACT_FILES f.tar_members
    if r.raised then ArchiveOutcome.archiveError "AttributeError"
    else ArchiveOutcome.tarExtracted r.count
  else
    match extract_gzip f with
    | Except.error e => ArchiveOutcome.archiveError e
    | Except.ok (some t) => ArchiveOutcome.gzipExtracted t
    | Except.ok none => ArchiveOutcome.plainFile

/-! ### Filename sanitization (cli.py lines 130-135) -/

/-- `pathlib.Path(name).name`: split on `/`, drop empty and `.` components
(`..` components are kept), take the last component if any. -/
def pyPathName (s : String) : String :=
  let parts := (splitSlashAux [] s.toList).filter (fun p => !(p.isEmpty) && !(p == ['.']))
  match parts.getLast? with
  | some p => String.mk p
  | none => ""

/-- The allow-list `[A-Za-z0-9._-]` of the regex on cli.py line 134. -/
def allowedFilenameChar (c : Char) : Bool :=
  c.isAlpha || c.isDigit || c == '.' || c == '_' || c == '-'

/-- `re.sub(r"[^A-Za-z0-9._-]+", "_", base)`: each maximal run of disallowed
characters becomes a single `_`.  `prevBad` records whether the previous
character was part of such a run. -/
def subDisallowed (prevBad : Bool) : List Char → List Char
  | [] => []
  | c :: cs =>
    if allowedFilenameChar c then c :: subDisallowed false cs
    else if prevBad then subDisallowed true cs
    else '_' :: subDisallowed true cs

/-- cli.py lines 130-135, `sanitize_filename(name)`. -/
def sanitize_filename (name : String) : String :=
  if name = "" then "upload"
  else
    let base := pyPathName name
    let base2 := String.mk (subDisallowed false base.toList)
    if base2 = "" then "upload" else base2

/-- Decidable `..`-substring test used to state what sanitization does and
does not guarantee. -/
def containsDotDot : List Char → Bool
  | [] => false
  | '.' :: '.' :: _ => true
  | _ :: rest => containsDotDot rest

/-! ### Message splitting (cli.py lines 292-332) -/

/-- The `cut` chosen by one iteration of the `split_message` loop (cli.py
lines 301-303), for `limit < len(remaining)`:
`cut = remaining.rfind("\n", 0, limit + 1)`, replaced by `limit` when no
newline was found or the found one sits before `int(limit * 0.4)`.
`int(limit * 0.4)` is written `2 * limit / 5`; the floating-point product
agrees with this floor for every realistic limit (and no property proved
below depends on the threshold's exact value). -/
def chooseCut (limit : Nat) (rem : List Char) : Nat :=
  match rfindChar '\n' rem (limit + 1) with
  | some i => if i < 2 * limit / 5 then limit else i
  | none => limit

/-- The `while remaining:` loop of cli.py lines 296-308, instrumented: each
emitted chunk is paired with a flag telling whether the boundary after it
consumed a newline (`remaining.startswith("\n")` on line 306).  `fuel` bounds
the number of iterations; `text.length` always suffices when `1 ≤ limit`
(each iteration removes at least one character), which is proved by the
lemmas below never running out of fuel under that hypothesis. -/
def splitGo (limit : Nat) : Nat → List Char → List (List Char × Bool)
  | _, [] => []
  | 0, _ :: _ => []
  | fuel + 1, c :: cs =>
    let rem := c :: cs
    if rem.length ≤ limit then [(rem, false)]
    else
      let cut := chooseCut limit rem
      let chunk := rem.take cut
      let rest0 := rem.drop cut
      if rest0.head? = some '\n' then (chunk, true) :: splitGo limit fuel rest0.tail
      else (chunk, false) :: splitGo limit fuel rest0

/-- cli.py lines 292-308, `split_message(text, limit)`, instrumented with the
consumed-newline flags. -/
def splitMessageFlagged (text : List Char) (limit : Nat) : List (List Char × Bool) :=
  if text.isEmpty then [([], false)] else splitGo limit text.length text

/-- cli.py lines 292-308, `split_message(text, limit)` (a Python `str` is its
code-point sequence, so chunks are `List Char`). -/
def split_message (text : List Char) (limit : Nat) : List (List Char) :=
  (splitMessageFlagged text limit).map Prod.fst

/-- Re-join chunks, re-inserting a newline at each boundary whose flag says
one was consumed there. -/
def rejoinFlags : List (List Char × Bool) → List Char
  | [] => []
  | (c, b) :: rest => c ++ (if b then '\n' :: rejoinFlags rest else rejoinFlags rest)

/-- Hard-cut invariant: every chunk except the last whose boundary did not
consume a newline (a split in the middle of a line) is exactly `limit`
characters long. -/
def hardCutOk (limit : Nat) : List (List Char × Bool) → Bool
  | [] => true
  | [_] => true
  | (c, b) :: rest =>
    (b || decide (c.length = limit)) && hardCutOk limit rest

/-! ### Conversation log (cli.py lines 112-117; bot.py lines 75-79 is the
same code) -/

/-- The per-conversation body of `append_log`: append, then `del items[:-30]`
(keep the most recent 30) when the list exceeds 30 entries. -/
def append_log_items (items : List String) (line : String) : List String :=
  let items2 := items ++ [line]
  if 30 < items2.length then items2.drop (items2.length - 30) else items2

/-- cli.py lines 112-117, `append_log(chat_logs, chat_id, line)`.  The dict
is modelled as a total map with `[]` for absent keys (`setdefault(chat_id, [])`
inserts exactly that before appending). -/
def append_log (chat_logs : Int → List String) (chat_id : Int) (line : String) :
    Int → List String :=
  fun k => if k = chat_id then append_log_items (chat_logs chat_id) line else chat_logs k

/-! ### JSON stream parsing (cli.py lines 335-401) -/

/-- A parsed JSON value.  `json.loads` maps JSON null to Python `None`;
`Json.null` stands for both throughout. -/
inductive Json where
  | null
  | bool (b : Bool)
  | num (n : Int)
  | str (s : String)
  | arr (items : List Json)
  | obj (fields : List (String × Json))

/-- Association lookup in a parsed JSON object.  `json.loads` produces a dict
with unique keys (a later duplicate key overwrites an earlier one while
parsing), so the field lists modelled here are duplicate-free and first-match
lookup is dict lookup. -/
def lookupJ : List (String × Json) → String → Option Json
  | [], _ => none
  | (k, v) :: rest, key => if k = key then some v else lookupJ rest key

/-- `payload.get(key)`: the stored value, or Python `None` (= `Json.null`)
when the key is absent. -/
def pyGet (fields : List (String × Json)) (key : String) : Json :=
  match lookupJ fields key with
  | some v => v
  | none => Json.null

/-- `key in payload`: presence, independent of the stored value. -/
def hasKey (fields : List (String × Json)) (key : String) : Bool :=
  (lookupJ fields key).isSome

/-- `value is None`. -/
def isNull : Json → Bool
  | Json.null => true
  | _ => false

/-- `value == "literal"` for a Python string literal. -/
def eqStrJ : Json → String → Bool
  | Json.str t, s => t == s
  | _, _ => false

/-- Python truthiness of a parsed JSON value. -/
def jsonTruthy : Json → Bool
  | Json.null => false
  | Json.bool b => b
  | Json.num n => n != 0
  | Json.str s => s != ""
  | Json.arr items => !items.isEmpty
  | Json.obj fields => !fields.isEmpty

-- A structurally recursive size for `Json`, used as recursion fuel below.
mutual
def jsonSize : Json → Nat
  | Json.null => 1
  | Json.bool _ => 1
  | Json.num _ => 1
  | Json.str _ => 1
  | Json.arr items => 1 + jsonListSize items
  | Json.obj fields => 1 + jsonFieldsSize fields

def jsonListSize : List Json → Nat
  | [] => 0
  | j :: rest => jsonSize j + jsonListSize rest

def jsonFieldsSize : List (String × Json) → Nat
  | [] => 0
  | (_, v) :: rest => jsonSize v + jsonFieldsSize rest
end

/-- The dict branch of `extract_codex_text` (cli.py lines 345-348): return on
the *first present* key among `text`, `content`, `value`, `output_text`,
whatever its value. -/
def firstPresentField (fields : List (String × Json)) : Option Json :=
  match lookupJ fields "text" with
  | some v => some v
  | none =>
    match lookupJ fields "content" with
    | some v => some v
    | none =>
      match lookupJ fields "value" with
      | some v => some v
      | none => lookupJ fields "output_text"

/-- cli.py lines 335-349, `extract_codex_text(value)`, with explicit recursion
fuel: `None` yields `""`, a string is returned as is, a list concatenates the
recursive extraction of its elements, a dict recurses into its first present
field among `text`/`content`/`value`/`output_text`, everything else yields
`""`.  Every recursive call descends to a strict subvalue, so `jsonSize j`
fuel is always enough and the function equals the source's unbounded
recursion. -/
def extract_codex_text_fuel : Nat → Json → String
  | 0, _ => ""
  | _ + 1, Json.null => ""
  | _ + 1, Json.bool _ => ""
  | _ + 1, Json.num _ => ""
  | _ + 1, Json.str s => s
  | fuel + 1, Json.arr items => String.join (items.map (extract_codex_text_fuel fuel))
  | fuel + 1, Json.obj fields =>
    match firstPresentField fields with
    | some v => extract_codex_text_fuel fuel v
    | none => ""

/-- cli.py lines 335-349, `extract_codex_text(value)`. -/
def extract_codex_text (j : Json) : String := extract_codex_text_fuel (jsonSize j) j

/-- The session-id cascade of cli.py lines 365-376, run for one payload when
no session id has been found yet: `session_id`, else a dict-valued
`session`'s `id` (or, for `type == "session"`, the top-level `id`), else
`thread_id` - overridden, when `type == "thread.started"`, by
`thread_id or id` (Python `or`, i.e. truthiness). -/
def sessionFromPayload (fields : List (String × Json)) : Json :=
  let sid1 := pyGet fields "session_id"
  let sid2 :=
    if isNull sid1 then
      match pyGet fields "session" with
      | Json.obj sf => pyGet sf "id"
      | _ => if eqStrJ (pyGet fields "type") "session" then pyGet fields "id" else Json.null
    else sid1
  if isNull sid2 then
    let t := pyGet fields "thread_id"
    if eqStrJ (pyGet fields "type") "thread.started" then
      if jsonTruthy (pyGet fields "thread_id") then pyGet fields "thread_id"
      else pyGet fields "id"
    else t
  else sid2

/-- The assistant-message `type` markers of cli.py line 380 (line 385 lists
the same four strings). -/
def isAnswerType (t : Json) : Bool :=
  eqStrJ t "message" || eqStrJ t "assistant_message" ||
    eqStrJ t "final_message" || eqStrJ t "agent_message"

/-- The candidate-answer extraction of cli.py lines 378-397, run for one
payload: an assistant-marked object with `role` absent or `"assistant"`
yields its own text; an `item.completed` object yields the text of its
dict-valued, assistant-marked `item`; otherwise a present `message` field
yields its text, else a present dict-valued `response` yields the text of its
`output_text`.  Returns `none` where the source leaves `candidate = None`. -/
def candidateFromPayload (fields : List (String × Json)) : Option String :=
  let pt := pyGet fields "type"
  if isAnswerType pt then
    if isNull (pyGet fields "role") || eqStrJ (pyGet fields "role") "assistant" then
      some (extract_codex_text (Json.obj fields))
    else none
  else if eqStrJ pt "item.completed" then
    match pyGet fields "item" with
    | Json.obj itemFields =>
      if isAnswerType (pyGet itemFields "type") then
        some (extract_codex_text (Json.obj itemFields))
      else none
    | _ => none
  else if hasKey fields "message" then
    some (extract_codex_text (pyGet fields "message"))
  else if hasKey fields "response" then
    match pyGet fields "response" with
    | Json.obj respFields => some (extract_codex_text (pyGet respFields "output_text"))
    | _ => none
  else none

/-- Is the parsed value a JSON object (`isinstance(payload, dict)`)? -/
def jsonIsObj : Json → Bool
  | Json.obj _ => true
  | _ => false

/-- The two accumulators of the scan loop on cli.py lines 353-354:
`answer` (a string once set - the source never stores an empty candidate)
and `session_id` (an arbitrary Python value, `Json.null` for `None`). -/
structure ParseState where
  answer : Option String
  session_id : Json

/-- One iteration of the loop on cli.py lines 355-400.  A `none` line is a
blank, unparseable or non-UTF-8 line (`continue` on lines 357-362); a
non-dict value is skipped (line 363); otherwise the session id is (re)sought
only while still `None` (first match wins) and a truthy candidate overwrites
the answer (last match wins). -/
def parseStep (st : ParseState) (line : Option Json) : ParseState :=
  match line with
  | none => st
  | some (Json.obj fields) =>
    let sid := if isNull st.session_id then sessionFromPayload fields else st.session_id
    let ans :=
      match candidateFromPayload fields with
      | some c => if c != "" then some c else st.answer
      | none => st.answer
    ⟨ans, sid⟩
  | some _ => st

/-- cli.py lines 352-401, `parse_codex_json_output(raw)`, with `raw` already
split into lines and each line replaced by its `json.loads` outcome. -/
def parse_codex_json_output (lines : List (Option Json)) : Option String × Json :=
  let st := lines.foldl parseStep ⟨none, Json.null⟩
  (st.answer, st.session_id)

/-! ### Process invocation (cli.py lines 404-463) -/

/-- Python `str.strip()` over the ASCII whitespace set (the inputs handled
here are produced by the subprocess interface as text). -/
def pyIsSpace (c : Char) : Bool :=
  c == ' ' || c == '\t' || c == '\n' || c == '\r' || c == '\x0b' || c == '\x0c'

/-- `s.strip()`. -/
def pyStrip (s : String) : String :=
  String.mk (((s.toList.dropWhile pyIsSpace).reverse.dropWhile pyIsSpace).reverse)

/-- Python `a or b` on session-id values (truthiness). -/
def pyOrJ (a b : Json) : Json := if jsonTruthy a then a else b

/-- cli.py lines 404-432, `run_codex_command(cmd, prompt, cwd, env,
session_id, allow_failure)`.  The subprocess is abstracted to its observable
outcome `(returncode, stdout lines as json.loads outcomes, stderr)`; the
command line, prompt and environment do not influence anything proved here.
On a non-zero exit the raised/returned error text is `stderr.strip() or
"codex exec failed"`.  On success the answer and session id come from
`parse_codex_json_output`; the source's early return for empty stdout is
behaviourally identical to parsing an empty line list (both yield
`("", session_id, None)`), so it needs no separate case. -/
def run_codex_command (returncode : Int) (stdoutLines : List (Option Json))
    (stderrText : String) (session_id : Json) (allow_failure : Bool) :
    Except String (String × Json × Option String) :=
  if returncode ≠ 0 then
    let err := if pyStrip stderrText = "" then "codex exec failed" else pyStrip stderrText
    if allow_failure then Except.ok ("", session_id, some err) else Except.error err
  else
    let parsed := parse_codex_json_output stdoutLines
    match parsed.1 with
    | none => Except.ok ("", pyOrJ parsed.2 session_id, none)
    | some a =>
      if a = "" then Except.ok ("", pyOrJ parsed.2 session_id, none)
      else Except.ok (pyStrip a, pyOrJ parsed.2 session_id, none)

/-- cli.py lines 435-463, `run_codex(prompt, workdir, session_id)`: builds the
command line (I/O glue, not modelled) and delegates to `run_codex_command`
with `allow_failure` at its default `False`, returning only the answer and
session id. -/
def run_codex (returncode : Int) (stdoutLines : List (Option Json))
    (stderrText : String) (session_id : Json) : Except String (String × Json) :=
  match run_codex_command returncode stdoutLines stderrText session_id false with
  | Except.error e => Except.error e
  | Except.ok (answer, sid, _) => Except.ok (answer, sid)

/-! ### Reply dispatch and orchestration (cli.py lines 288-332, 484-558) -/

/-- cli.py lines 288-289, `normalize_markdown(text)` = `text or ""`, the
identity on `str`. -/
def normalize_markdown (text : String) : String := text

/-- cli.py lines 311-332, `reply_in_chunks(message, text, parse_mode, ...)`,
returning the list of messages actually handed to `message.reply_text`, each
with the parse mode used.  Empty text returns before producing any chunk.
With a parse mode requested, the smaller Markdown limit is used only when the
whole text fits under it; otherwise the parse mode is dropped and the plain
limit used. -/
def reply_in_chunks (text : String) (parse_mode : Option String) :
    List (String × Option String) :=
  if text = "" then []
  else
    let pmLimit : Option String × Nat :=
      match parse_mode with
      | some pm =>
        if text.toList.length ≤ MAX_MARKDOWN_MESSAGE_LENGTH then
          (some pm, MAX_MARKDOWN_MESSAGE_LENGTH)
        else (none, MAX_PLAIN_MESSAGE_LENGTH)
      | none => (none, MAX_PLAIN_MESSAGE_LENGTH)
    (split_message text.toList pmLimit.2).map (fun part => (String.mk part, pmLimit.1))

/-- Point update of the per-conversation session store
(`chat_sessions[chat_id] = new_session_id`, cli.py line 525). -/
def updateSessions (m : Int → Json) (cid : Int) (sid : Json) : Int → Json :=
  fun k => if k = cid then sid else m k

/-- cli.py lines 484-558, `run_codex_and_reply(...)`, restricted to its
session-store and reply behaviour.  The invocation outcome is abstracted as
in `run_codex`.  If `run_codex` raises, the `except Exception` handler sends
one plain reply with the exception text.  On return, a truthy new session id
is stored (the `ensure_sandbox` calls on lines 511-524 touch only the sandbox
map and the filesystem, not `chat_sessions`); only *after* that does line 531
raise `RuntimeError("Empty response from codex")` for an empty answer, which
the same handler turns into a plain error reply.  A non-empty answer is sent
through `reply_in_chunks` with Markdown requested (the platform-side
`BadRequest` fallback is outside this model). -/
def run_codex_and_reply (chat_sessions : Int → Json) (chat_id : Int)
    (returncode : Int) (stdoutLines : List (Option Json)) (stderrText : String) :
    (Int → Json) × List (String × Option String) :=
  let session_id := chat_sessions chat_id
  match run_codex returncode stdoutLines stderrText session_id with
  | Except.error e => (chat_sessions, reply_in_chunks ("Ошибка: " ++ e) none)
  | Except.ok (raw_answer, new_session_id) =>
    let sessions' :=
      if jsonTruthy new_session_id then updateSessions chat_sessions chat_id new_session_id
      else chat_sessions
    if raw_answer = "" then
      (sessions', reply_in_chunks ("Ошибка: Empty response from codex") none)
    else
      (sessions', reply_in_chunks (normalize_markdown raw_answer) (some "Markdown"))

/-! ### Theorems -/

theorem isPrefixB_refl : ∀ l : List String, isPrefixB l l = true
  | [] => rfl
  | a :: as => by simp [isPrefixB, isPrefixB_refl as]

theorem is_within_prefix {base : List String} {target : List PComp}
    (h : is_within_directory base target = true) :
    isPrefixB base (resolveFrom [] target) = true := by
  simp only [is_within_directory, in_parents, Bool.or_eq_true, Bool.and_eq_true,
    beq_iff_eq, decide_eq_true_eq] at h
  rcases h with h | h
  · rw [h]; exact isPrefixB_refl _
  · exact h.1

theorem extract_zip_go_within (dest : List String) (mf : Nat) :
    ∀ (entries : List ZipEntry) (count : Nat),
      ((extract_zip_go dest mf count entries).actions.all fun a => isPrefixB dest a.2) = true := by
  intro entries
  induction entries with
  | nil => intro count; rfl
  | cons e rest ih =>
    intro count
    unfold extract_zip_go
    by_cases hc : mf ≤ count
    · simp [hc]
    · cases hw : is_within_directory dest (joined_comps dest e.filename)
      · have h2 := ih count
        simp at h2
        simp [hc, hw]
        exact h2
      · cases hd : e.is_dir
        · have h2 := ih (count + 1)
          simp at h2
          simp [hc, hw, hd, is_within_prefix hw]
          exact h2
        · have h2 := ih count
          simp at h2
          simp [hc, hw, hd, is_within_prefix hw]
          exact h2

theorem extract_zip_go_count (dest : List String) (mf : Nat) :
    ∀ (entries : List ZipEntry) (count : Nat),
      (extract_zip_go dest mf count entries).count
        = count + ((extract_zip_go dest mf count entries).actions.filter fun a => !a.1).length := by
  intro entries
  induction entries with
  | nil => intro count; simp [extract_zip_go]
  | cons e rest ih =>
    intro count
    unfold extract_zip_go
    by_cases hc : mf ≤ count
    · simp [hc]
    · cases hw : is_within_directory dest (joined_comps dest e.filename)
      · simp [hc, hw]
        exact ih count
      · cases hd : e.is_dir
        · have h2 := ih (count + 1)
          simp [hc, hw, hd]
          omega
        · have h2 := ih count
          simp [hc, hw, hd]
          omega

theorem extract_tar_go_within (dest : List String) (mf : Nat) :
    ∀ (members : List TarMember) (count : Nat),
      ((extract_tar_go dest mf count members).actions.all fun a => isPrefixB dest a.2) = true := by
  intro members
  induction members with
  | nil => intro count; rfl
  | cons m rest ih =>
    intro count
    unfold extract_tar_go
    by_cases hc : mf ≤ count
    · simp [hc]
    · cases hw : is_within_directory dest (joined_comps dest m.mname)
      · have h2 := ih count
        simp at h2
        simp [hc, hw]
        exact h2
      · cases hk : m.kind
        · have h2 := ih (count + 1)
          simp at h2
          simp [hc, hw, hk, is_within_prefix hw]
          exact h2
        · have h2 := ih count
          simp at h2
          simp [hc, hw, hk, is_within_prefix hw]
          exact h2
        · simp [hc, hw, hk]

theorem extract_tar_go_count (dest : List String) (mf : Nat) :
    ∀ (members : List TarMember) (count : Nat),
      (extract_tar_go dest mf count members).count
        = count + ((extract_tar_go dest mf count members).actions.filter fun a => !a.1).length := by
  intro members
  induction members with
  | nil => intro count; simp [extract_tar_go]
  | cons m rest ih =>
    intro count
    unfold extract_tar_go
    by_cases hc : mf ≤ count
    · simp [hc]
    · cases hw : is_within_directory dest (joined_comps dest m.mname)
      · simp [hc, hw]
        exact ih count
      · cases hk : m.kind
        · have h2 := ih (count + 1)
          simp [hc, hw, hk]
          omega
        · have h2 := ih count
          simp [hc, hw, hk]
          omega
        · simp [hc, hw, hk]

/-- C1: for every archive (zip or tar), every filesystem action the extractor
performs - each directory creation and each file write, recorded at its
resolved location - lies inside (is prefixed by) the resolved destination
directory, and the returned count equals exactly the number of file writes
performed; hence an entry whose computed destination resolves outside
`destDir` (via `..` components or an absolute path) produces no write and no
count increment - it is skipped. -/
theorem claim_C1 (dest : List String) (max_files : Nat)
    (zip_entries : List ZipEntry) (tar_members : List TarMember) :
    (((extract_zip dest max_files zip_entries).actions.all fun a => isPrefixB dest a.2) = true
      ∧ (extract_zip dest max_files zip_entries).count
          = ((extract_zip dest max_files zip_entries).actions.filter fun a => !a.1).length)
    ∧ (((extract_tar dest max_files tar_members).actions.all fun a => isPrefixB dest a.2) = true
      ∧ (extract_tar dest max_files tar_members).count
          = ((extract_tar dest max_files tar_members).actions.filter fun a => !a.1).length) := by
  refine ⟨⟨extract_zip_go_within dest max_files zip_entries 0, ?_⟩,
    extract_tar_go_within dest max_files tar_members 0, ?_⟩
  · simpa using extract_zip_go_count dest max_files zip_entries 0
  · simpa using extract_tar_go_count dest max_files tar_members 0

/-- C9: a concrete tar archive whose single member resolves inside the
destination but is neither a regular file nor a directory (a FIFO, say)
makes `extract_tar` abort with an exception (`raised = true`, nothing
extracted) instead of silently skipping the member: the `with
tf.extractfile(member)` statement enters `None` as a context manager before
the `if src is None` check can run. -/
theorem claim_C9 :
    extract_tar ["tmp", "work"] MAX_EXTRACT_FILES
        [⟨⟨false, [PComp.name "pipe"]⟩, TarKind.other⟩]
      = ⟨0, [], true⟩
    ∧ is_within_directory ["tmp", "work"]
        (joined_comps ["tmp", "work"] ⟨false, [PComp.name "pipe"]⟩) = true := by
  constructor
  · rfl
  · rfl

/-- C10: dispatching a reply with empty text sends zero messages - the
`if not text: return` guard fires before any chunk is produced - even though
`split_message` itself maps empty input to a single empty chunk. -/
theorem claim_C10 (parse_mode : Option String) (limit : Nat) :
    reply_in_chunks "" parse_mode = [] ∧ split_message [] limit = [[]] :=
  ⟨rfl, rfl⟩

theorem append_log_items_eq (items : List String) (line : String) :
    append_log_items items line
      = (items ++ [line]).drop ((items ++ [line]).length - 30) := by
  simp only [append_log_items]
  by_cases h : 30 < (items ++ [line]).length
  · rw [if_pos h]
  · rw [if_neg h]
    have h0 : (items ++ [line]).length - 30 = 0 := by omega
    rw [h0, List.drop_zero]

theorem append_log_items_length (items : List String) (line : String) :
    (append_log_items items line).length ≤ 30 := by
  rw [append_log_items_eq]
  simp only [List.length_drop]
  omega

theorem drop_absorb (m xs : List String) :
    (m.drop (m.length - 30) ++ xs).drop ((m.drop (m.length - 30) ++ xs).length - 30)
      = (m ++ xs).drop ((m ++ xs).length - 30) := by
  have h1 : m.drop (m.length - 30) ++ xs = (m ++ xs).drop (m.length - 30) := by
    rw [List.drop_append_eq_append_drop]
    have h0 : m.length - 30 - m.length = 0 := by omega
    simp [h0]
  rw [h1, List.drop_drop]
  congr 1
  simp only [List.length_drop, List.length_append]
  omega

theorem foldl_append_log_items (chatLines : List String) :
    ∀ acc : List String, acc.length ≤ 30 →
      chatLines.foldl append_log_items acc
        = (acc ++ chatLines).drop ((acc ++ chatLines).length - 30) := by
  induction chatLines with
  | nil =>
    intro acc h
    have h0 : acc.length - 30 = 0 := by omega
    simp [h0]
  | cons x xs ih =>
    intro acc h
    simp only [List.foldl_cons]
    rw [ih (append_log_items acc x) (append_log_items_length acc x),
      append_log_items_eq]
    have h2 := drop_absorb (acc ++ [x]) xs
    simpa [List.append_assoc] using h2

theorem foldl_append_log_at (chat_id : Int) (chatLines : List String) :
    ∀ m : Int → List String,
      (chatLines.foldl (fun acc line => append_log acc chat_id line) m) chat_id
        = chatLines.foldl append_log_items (m chat_id) := by
  induction chatLines with
  | nil => intro m; rfl
  | cons x xs ih =>
    intro m
    simp only [List.foldl_cons]
    rw [ih]
    congr 1
    simp [append_log]

/-- C3: starting from an empty store, after any sequence of appends for a
conversation id the stored log holds at most 30 entries and equals exactly
the suffix of the appended lines obtained by dropping all but the last 30 -
i.e. for more than 30 appends, exactly the last 30 lines in insertion order
(FIFO eviction), and for at most 30 appends, all of them. -/
theorem claim_C3 (chatLines : List String) (chat_id : Int) :
    ((chatLines.foldl (fun acc line => append_log acc chat_id line) (fun _ => [])) chat_id).length ≤ 30
    ∧ (chatLines.foldl (fun acc line => append_log acc chat_id line) (fun _ => [])) chat_id
        = chatLines.drop (chatLines.length - 30) := by
  have h := foldl_append_log_at chat_id chatLines (fun _ => [])
  have h2 := foldl_append_log_items chatLines [] (by simp)
  constructor
  · rw [h, h2]
    simp only [List.length_drop]
    omega
  · rw [h, h2]
    simp

theorem subDisallowed_no_slash : ∀ (prevBad : Bool) (cs : List Char),
    ((subDisallowed prevBad cs).all fun c => c != '/') = true := by
  intro prevBad cs
  induction cs generalizing prevBad with
  | nil => rfl
  | cons c rest ih =>
    unfold subDisallowed
    by_cases ha : allowedFilenameChar c = true
    · have hcslash : (c != '/') = true := by
        rcases eq_or_ne c '/' with h | h
        · exact absurd (h ▸ ha) (by decide)
        · simp [h]
      simp [ha, hcslash, ih false]
    · by_cases hp : prevBad = true
      · simp [ha, hp, ih true]
      · simp [ha, hp, ih true]

/-- C8 counterexample: sanitization does not remove `..` from within a single
filename component - the inputs `".."` and `"a..b"` come back unchanged, so
the claimed "output never contains `..`" is false (`pathlib.Path("..").name`
is `".."`, every character of which is on the allow-list). -/
theorem claim_C8_counterexample :
    sanitize_filename ".." = ".."
    ∧ sanitize_filename "a..b" = "a..b"
    ∧ containsDotDot (sanitize_filename "a..b").toList = true := by
  refine ⟨by decide, by decide, by decide⟩

/-- C8 (amended): `"../../evil"` sanitizes to the non-empty safe token
`"evil"`, `""` to the fallback `"upload"`, `"ok name!.txt"` to
`"ok_name_.txt"` (allow-list substitution), and no output ever contains `/`;
outputs may however still contain `..` as a substring. -/
theorem claim_C8 :
    sanitize_filename "../../evil" = "evil"
    ∧ sanitize_filename "" = "upload"
    ∧ sanitize_filename "ok name!.txt" = "ok_name_.txt"
    ∧ ∀ name : String,
        ((sanitize_filename name).toList.all fun c => c != '/') = true := by
  refine ⟨by decide, by decide, by decide, ?_⟩
  intro name
  unfold sanitize_filename
  by_cases h0 : name = ""
  · rw [if_pos h0]
    decide
  · rw [if_neg h0]
    by_cases h1 : String.mk (subDisallowed false (pyPathName name).toList) = ""
    · rw [if_pos h1]
      decide
    · rw [if_neg h1]
      exact subDisallowed_no_slash false (pyPathName name).toList

theorem rfindCharAux_sound (c : Char) (l : List Char) :
    ∀ n i, rfindCharAux c l n = some i → i < n ∧ l.getD i ' ' = c := by
  intro n
  induction n with
  | zero => intro i h; cases h
  | succ k ih =>
    intro i h
    unfold rfindCharAux at h
    by_cases hc : l.getD k ' ' == c
    · rw [if_pos hc] at h
      cases h
      exact ⟨Nat.lt_succ_self _, eq_of_beq hc⟩
    · rw [if_neg hc] at h
      have h2 := ih i h
      exact ⟨Nat.lt_succ_of_lt h2.1, h2.2⟩

theorem rfindChar_sound (c : Char) (l : List Char) (e : Nat) (i : Nat)
    (h : rfindChar c l e = some i) : i < e ∧ i < l.length ∧ l.getD i ' ' = c := by
  have h2 := rfindCharAux_sound c l (min e l.length) i h
  exact ⟨lt_of_lt_of_le h2.1 (Nat.min_le_left _ _),
    lt_of_lt_of_le h2.1 (Nat.min_le_right _ _), h2.2⟩

theorem drop_head_getD (l : List Char) :
    ∀ i, i < l.length → (l.drop i).head? = some (l.getD i ' ') := by
  induction l with
  | nil => intro i h; simp at h
  | cons a as ih =>
    intro i h
    cases i with
    | zero => rfl
    | succ k =>
      simp only [List.drop_succ_cons, List.getD_cons_succ]
      exact ih k (by simpa using h)

theorem chooseCut_le (limit : Nat) (rem : List Char) : chooseCut limit rem ≤ limit := by
  unfold chooseCut
  cases h : rfindChar '\n' rem (limit + 1) with
  | none => exact Nat.le_refl _
  | some i =>
    have hs := rfindChar_sound _ _ _ _ h
    by_cases hi : i < 2 * limit / 5
    · simp [hi]
    · simp only [hi, if_false]
      omega

theorem chooseCut_spec (limit : Nat) (rem : List Char) :
    chooseCut limit rem = limit
      ∨ (rem.drop (chooseCut limit rem)).head? = some '\n' := by
  unfold chooseCut
  cases h : rfindChar '\n' rem (limit + 1) with
  | none => exact Or.inl rfl
  | some i =>
    have hs := rfindChar_sound _ _ _ _ h
    by_cases hi : i < 2 * limit / 5
    · simp [hi]
    · simp only [hi, if_false]
      right
      rw [drop_head_getD rem i hs.2.1, hs.2.2]

theorem splitGo_rejoin (limit : Nat) (hl : 1 ≤ limit) :
    ∀ fuel rem, rem.length ≤ fuel → rejoinFlags (splitGo limit fuel rem) = rem := by
  intro fuel
  induction fuel with
  | zero =>
    intro rem h
    have h0 : rem = [] := List.eq_nil_of_length_eq_zero (Nat.le_zero.mp h)
    subst h0
    rfl
  | succ k ih =>
    intro rem h
    cases rem with
    | nil => rfl
    | cons c cs =>
      simp only [splitGo]
      by_cases hlen : (c :: cs).length ≤ limit
      · rw [if_pos hlen]
        simp [rejoinFlags]
      · rw [if_neg hlen]
        have hcle := chooseCut_le limit (c :: cs)
        by_cases hh : ((c :: cs).drop (chooseCut limit (c :: cs))).head? = some '\n'
        · rw [if_pos hh]
          obtain ⟨t, ht⟩ : ∃ t, (c :: cs).drop (chooseCut limit (c :: cs)) = '\n' :: t := by
            cases hd : (c :: cs).drop (chooseCut limit (c :: cs)) with
            | nil => rw [hd] at hh; cases hh
            | cons x xs =>
              rw [hd] at hh
              simp only [List.head?_cons, Option.some.injEq] at hh
              exact ⟨xs, by rw [hh]⟩
          have hlt : ((c :: cs).drop (chooseCut limit (c :: cs))).tail.length ≤ k := by
            simp only [List.length_tail, List.length_drop]
            simp only [List.length_cons] at h ⊢
            omega
          simp only [rejoinFlags, ih _ hlt]
          rw [ht]
          simp only [List.tail_cons]
          have := List.take_append_drop (chooseCut limit (c :: cs)) (c :: cs)
          rw [ht] at this
          exact this
        · rw [if_neg hh]
          have hcut : chooseCut limit (c :: cs) = limit := by
            rcases chooseCut_spec limit (c :: cs) with h1 | h1
            · exact h1
            · exact absurd h1 hh
          have hlt : ((c :: cs).drop (chooseCut limit (c :: cs))).length ≤ k := by
            simp only [List.length_drop, hcut]
            simp only [List.length_cons] at h ⊢
            omega
          simp only [rejoinFlags, ih _ hlt]
          exact List.take_append_drop _ _

theorem splitGo_chunk_le (limit : Nat) :
    ∀ fuel rem, ((splitGo limit fuel rem).all fun p => decide (p.1.length ≤ limit)) = true := by
  intro fuel
  induction fuel with
  | zero => intro rem; cases rem <;> rfl
  | succ k ih =>
    intro rem
    cases rem with
    | nil => rfl
    | cons c cs =>
      simp only [splitGo]
      by_cases hlen : (c :: cs).length ≤ limit
      · rw [if_pos hlen]
        simp only [List.all_cons, List.all_nil, Bool.and_true, decide_eq_true_eq]
        simpa using hlen
      · rw [if_neg hlen]
        have hcle := chooseCut_le limit (c :: cs)
        by_cases hh : ((c :: cs).drop (chooseCut limit (c :: cs))).head? = some '\n'
        · rw [if_pos hh]
          simp only [List.all_cons, Bool.and_eq_true, decide_eq_true_eq]
          refine ⟨?_, ih _⟩
          simp only [List.length_take]
          omega
        · rw [if_neg hh]
          simp only [List.all_cons, Bool.and_eq_true, decide_eq_true_eq]
          refine ⟨?_, ih _⟩
          simp only [List.length_take]
          omega

theorem hardCutOk_cons (limit : Nat) (c : List Char) (b : Bool)
    (l : List (List Char × Bool))
    (hb : b = true ∨ c.length = limit) (hl : hardCutOk limit l = true) :
    hardCutOk limit ((c, b) :: l) = true := by
  cases l with
  | nil => rfl
  | cons x xs =>
    simp only [hardCutOk, Bool.and_eq_true]
    refine ⟨?_, hl⟩
    rcases hb with h | h
    · simp [h]
    · simp [h]

theorem splitGo_hardCut (limit : Nat) (hl1 : 1 ≤ limit) :
    ∀ fuel rem, rem.length ≤ fuel → hardCutOk limit (splitGo limit fuel rem) = true := by
  intro fuel
  induction fuel with
  | zero =>
    intro rem h
    have h0 : rem = [] := List.eq_nil_of_length_eq_zero (Nat.le_zero.mp h)
    subst h0
    rfl
  | succ k ih =>
    intro rem h
    cases rem with
    | nil => rfl
    | cons c cs =>
      simp only [splitGo]
      by_cases hlen : (c :: cs).length ≤ limit
      · rw [if_pos hlen]
        rfl
      · rw [if_neg hlen]
        have hcle := chooseCut_le limit (c :: cs)
        by_cases hh : ((c :: cs).drop (chooseCut limit (c :: cs))).head? = some '\n'
        · rw [if_pos hh]
          have hlt : ((c :: cs).drop (chooseCut limit (c :: cs))).tail.length ≤ k := by
            simp only [List.length_tail, List.length_drop]
            simp only [List.length_cons] at h ⊢
            omega
          exact hardCutOk_cons limit _ true _ (Or.inl rfl) (ih _ hlt)
        · rw [if_neg hh]
          have hcut : chooseCut limit (c :: cs) = limit := by
            rcases chooseCut_spec limit (c :: cs) with h1 | h1
            · exact h1
            · exact absurd h1 hh
          have hlt : ((c :: cs).drop (chooseCut limit (c :: cs))).length ≤ k := by
            simp only [List.length_drop, hcut]
            simp only [List.length_cons] at h ⊢
            omega
          have hchunk : ((c :: cs).take (chooseCut limit (c :: cs))).length = limit := by
            simp only [List.length_take, hcut]
            simp only [List.length_cons] at hlen ⊢
            omega
          exact hardCutOk_cons limit _ false _ (Or.inr hchunk) (ih _ hlt)

/-- C4: for every text and every limit at least 1, re-joining the chunks of
`split_message` (re-inserting a newline at each boundary where one was
consumed) reproduces the text exactly; every chunk is at most `limit`
characters; every chunk whose boundary fell in the middle of a line (no
newline consumed) other than the final chunk is exactly `limit` characters
long (hard cut); and empty input yields a single empty chunk. -/
theorem claim_C4 (text : List Char) (limit : Nat) (hl : 1 ≤ limit) :
    rejoinFlags (splitMessageFlagged text limit) = text
    ∧ ((split_message text limit).all fun ch => decide (ch.length ≤ limit)) = true
    ∧ hardCutOk limit (splitMessageFlagged text limit) = true
    ∧ split_message [] limit = [[]] := by
  refine ⟨?_, ?_, ?_, rfl⟩
  · unfold splitMessageFlagged
    by_cases h : text.isEmpty
    · rw [if_pos h]
      have h0 : text = [] := by simpa using h
      subst h0
      rfl
    · rw [if_neg h]
      exact splitGo_rejoin limit hl text.length text (Nat.le_refl _)
  · unfold split_message splitMessageFlagged
    by_cases h : text.isEmpty
    · rw [if_pos h]
      simp
    · rw [if_neg h]
      have h2 := splitGo_chunk_le limit text.length text
      simp only [List.all_eq_true, decide_eq_true_eq, Prod.forall, Bool.forall_bool] at h2
      simp only [List.all_map, List.all_eq_true, decide_eq_true_eq, Function.comp,
        List.mem_map, forall_exists_index, and_imp]
      rintro x ⟨a, b⟩ hmem rfl
      cases b
      · exact (h2 a).1 hmem
      · exact (h2 a).2 hmem
  · unfold splitMessageFlagged
    by_cases h : text.isEmpty
    · rw [if_pos h]
      rfl
    · rw [if_neg h]
      exact splitGo_hardCut limit hl text.length text (Nat.le_refl _)


/-- C4 witness: the theorem instantiated at the concrete text "ab\ncdef" and
limit 3. -/
theorem claim_C4_witness :
    1 ≤ 3
    ∧ (rejoinFlags (splitMessageFlagged ['a', 'b', '\n', 'c', 'd', 'e', 'f'] 3)
          = ['a', 'b', '\n', 'c', 'd', 'e', 'f']
      ∧ ((split_message ['a', 'b', '\n', 'c', 'd', 'e', 'f'] 3).all
            fun ch => decide (ch.length ≤ 3)) = true
      ∧ hardCutOk 3 (splitMessageFlagged ['a', 'b', '\n', 'c', 'd', 'e', 'f'] 3) = true
      ∧ split_message [] 3 = [[]]) :=
  ⟨by decide, claim_C4 ['a', 'b', '\n', 'c', 'd', 'e', 'f'] 3 (by decide)⟩

/-- C2: in the streaming parser, lines that fail to parse as JSON (or are
blank) and lines that parse to a non-object are skipped without affecting
the scan state; once a session id has been found it is never overwritten
(first match wins); a line yielding a non-empty candidate text always
overwrites the answer (last match wins); and on the concrete 4-line stream -
session id `"s1"`, assistant text `"A"`, a non-JSON line, assistant text
`"B"` - the result is answer `"B"` with session id `"s1"`. -/
theorem claim_C2 :
    (∀ st, parseStep st none = st)
    ∧ (∀ st j, jsonIsObj j = false → parseStep st (some j) = st)
    ∧ (∀ st line, isNull st.session_id = false →
        (parseStep st line).session_id = st.session_id)
    ∧ (∀ st fields c, candidateFromPayload fields = some c → c ≠ "" →
        (parseStep st (some (Json.obj fields))).answer = some c)
    ∧ parse_codex_json_output
        [some (Json.obj [("session_id", Json.str "s1")]),
         some (Json.obj [("type", Json.str "assistant_message"), ("text", Json.str "A")]),
         none,
         some (Json.obj [("type", Json.str "assistant_message"), ("text", Json.str "B")])]
      = (some "B", Json.str "s1") := by
  refine ⟨fun st => rfl, ?_, ?_, ?_, ?_⟩
  · intro st j h
    cases j with
    | null => rfl
    | bool b => rfl
    | num n => rfl
    | str s => rfl
    | arr items => rfl
    | obj fields => simp [jsonIsObj] at h
  · intro st line h
    cases line with
    | none => rfl
    | some j =>
      cases j with
      | null => rfl
      | bool b => rfl
      | num n => rfl
      | str s => rfl
      | arr items => rfl
      | obj fields => simp [parseStep, h]
  · intro st fields c hc hne
    simp [parseStep, hc, hne]
  · rfl

/-- C2 witness: the skip, first-match and last-match parts of the theorem
instantiated at concrete states and lines. -/
theorem claim_C2_witness :
    parseStep ⟨none, Json.null⟩ (some (Json.str "noise")) = ⟨none, Json.null⟩
    ∧ (parseStep ⟨some "A", Json.str "s1"⟩
        (some (Json.obj [("session_id", Json.str "zz")]))).session_id = Json.str "s1"
    ∧ (parseStep ⟨some "A", Json.str "s1"⟩
        (some (Json.obj [("type", Json.str "agent_message"),
          ("text", Json.str "B")]))).answer = some "B" :=
  ⟨claim_C2.2.1 ⟨none, Json.null⟩ (Json.str "noise") rfl,
   claim_C2.2.2.1 ⟨some "A", Json.str "s1"⟩ _ rfl,
   claim_C2.2.2.2.1 ⟨some "A", Json.str "s1"⟩ _ "B" rfl (by decide)⟩

/-- C5 counterexample: with exit status 1 and captured stderr `"boom\n"`, the
raised error text is the *stripped* `"boom"`, not the captured stderr text
`"boom\n"` - so "error text is exactly the captured standard-error text" is
false as stated. -/
theorem claim_C5_counterexample :
    run_codex_command 1 [] "boom\n" Json.null false = Except.error "boom"
    ∧ ("boom" == "boom\n") = false := by
  constructor
  · rfl
  · decide

/-- C5 (amended): for every invocation where the process exits non-zero and
the caller did not opt in to tolerate failure, `run_codex_command` raises an
error whose text is exactly the captured standard-error text stripped of
leading/trailing whitespace (so stderr `"boom"` raises exactly `"boom"`), or
the generic `"codex exec failed"` when the stripped stderr is empty. -/
theorem claim_C5 (returncode : Int) (stdoutLines : List (Option Json))
    (stderrText : String) (session_id : Json) (h : returncode ≠ 0) :
    run_codex_command returncode stdoutLines stderrText session_id false
      = Except.error
          (if pyStrip stderrText = "" then "codex exec failed" else pyStrip stderrText) := by
  unfold run_codex_command
  rw [if_pos h]
  rfl

/-- C5 witness: exit status 1 with stderr `"boom"` raises exactly `"boom"`. -/
theorem claim_C5_witness :
    run_codex_command 1 [] "boom" Json.null false = Except.error "boom" :=
  (claim_C5 1 [] "boom" Json.null (by decide)).trans (by rfl)

/-- C6: when the process exits 0 and the stream yields no answer but did
declare a (truthy) session id, the orchestrator both records that session id
in the per-conversation session store (the store update on line 525 precedes
the `RuntimeError` on line 531) and sends the user a single plain-text
empty-response error message. -/
theorem claim_C6 (chat_sessions : Int → Json) (chat_id : Int)
    (stdoutLines : List (Option Json)) (stderrText : String) (sid : Json)
    (hparse : parse_codex_json_output stdoutLines = (none, sid))
    (htruthy : jsonTruthy sid = true) :
    (run_codex_and_reply chat_sessions chat_id 0 stdoutLines stderrText).1 chat_id = sid
    ∧ (run_codex_and_reply chat_sessions chat_id 0 stdoutLines stderrText).2
        = [("Ошибка: Empty response from codex", none)] := by
  have h0 : ¬ ((0 : Int) ≠ 0) := by decide
  have hrun : run_codex 0 stdoutLines stderrText (chat_sessions chat_id)
      = Except.ok ("", sid) := by
    unfold run_codex run_codex_command
    rw [if_neg h0]
    simp [hparse, pyOrJ, htruthy]
  have hexp : run_codex_and_reply chat_sessions chat_id 0 stdoutLines stderrText
      = (updateSessions chat_sessions chat_id sid,
         reply_in_chunks ("Ошибка: Empty response from codex") none) := by
    unfold run_codex_and_reply
    simp only [hrun]
    simp [htruthy]
  rw [hexp]
  constructor
  · simp [updateSessions]
  · rfl

/-- C6 witness: a stream declaring only `session_id "s1"` on exit 0, against
an empty store for conversation 7. -/
theorem claim_C6_witness :
    parse_codex_json_output [some (Json.obj [("session_id", Json.str "s1")])]
      = (none, Json.str "s1")
    ∧ jsonTruthy (Json.str "s1") = true
    ∧ ((run_codex_and_reply (fun _ => Json.null) 7 0
          [some (Json.obj [("session_id", Json.str "s1")])] "").1 7 = Json.str "s1"
      ∧ (run_codex_and_reply (fun _ => Json.null) 7 0
          [some (Json.obj [("session_id", Json.str "s1")])] "").2
        = [("Ошибка: Empty response from codex", none)]) :=
  ⟨rfl, rfl, claim_C6 (fun _ => Json.null) 7 _ "" (Json.str "s1") rfl rfl⟩

/-- C7 counterexample: a non-zip non-tar file named `"x.gz"` whose content
lacks the gzip magic is still routed to the gzip path (the decompression
attempt fails with an error), and a non-zip non-tar file named `"data.bin"`
whose content *does* carry the gzip magic is treated as a plain file - so
gzip is detected by filename, not by content sniffing, contradicting the
claim that the filename is consulted only for a content-detected gzip. -/
theorem claim_C7_counterexample :
    handle_archive ⟨"x.gz", false, false, false, [], []⟩ ["root"]
      = ArchiveOutcome.archiveError "BadGzipFile"
    ∧ handle_archive ⟨"data.bin", false, false, true, [], []⟩ ["root"]
      = ArchiveOutcome.plainFile := by
  constructor
  · rfl
  · rfl

/-- C7 (amended): zip and tar are detected by content sniffing (the stdlib's
signature checks), in that order; a file that is neither is routed by
filename alone - only a `.gz` suffix that is not a compound
`.tar.gz`/`.tgz` name takes the gzip path, and there the gzip magic is only
checked at decompression time, a mismatch raising an error; any other
filename is treated as a plain file regardless of its content. -/
theorem claim_C7 (f : UploadedFile) (dest : List String) :
    (f.is_zipfile = true →
      handle_archive f dest
        = ArchiveOutcome.zipExtracted (extract_zip dest MAX_EXTRACT_FILES f.zip_entries).count)
    ∧ (f.is_zipfile = false → f.is_tarfile = true →
      handle_archive f dest
        = (if (extract_tar dest MAX_EXTRACT_FILES f.tar_members).raised
            then ArchiveOutcome.archiveError "AttributeError"
            else ArchiveOutcome.tarExtracted
              (extract_tar dest MAX_EXTRACT_FILES f.tar_members).count))
    ∧ (f.is_zipfile = false → f.is_tarfile = false →
      (path_suffix f.fname ≠ ".gz"
        ∨ pyEndsWith f.fname ".tar.gz" = true ∨ pyEndsWith f.fname ".tgz" = true) →
      handle_archive f dest = ArchiveOutcome.plainFile)
    ∧ (f.is_zipfile = false → f.is_tarfile = false →
      path_suffix f.fname = ".gz" →
      pyEndsWith f.fname ".tar.gz" = false → pyEndsWith f.fname ".tgz" = false →
      handle_archive f dest
        = (if f.gzip_magic
            then ArchiveOutcome.gzipExtracted
              (if pyDropRight f.fname 3 = "" then "archive" else pyDropRight f.fname 3)
            else ArchiveOutcome.archiveError "BadGzipFile")) := by
  refine ⟨?_, ?_, ?_, ?_⟩
  · intro hz
    simp [handle_archive, hz]
  · intro hz ht
    simp [handle_archive, hz, ht]
  · intro hz ht hname
    have hg : extract_gzip f = Except.ok none := by
      unfold extract_gzip
      by_cases hs : path_suffix f.fname = ".gz"
      · have hcomp : (pyEndsWith f.fname ".tar.gz" || pyEndsWith f.fname ".tgz") = true := by
          rcases hname with h | h | h
          · exact absurd hs h
          · simp [h]
          · simp [h]
        rw [if_neg (not_not_intro hs), if_pos hcomp]
      · rw [if_pos hs]
    simp [handle_archive, hz, ht, hg]
  · intro hz ht hsuf h7 h8
    have hg : extract_gzip f
        = (if f.gzip_magic
            then Except.ok (some (if pyDropRight f.fname 3 = "" then "archive"
              else pyDropRight f.fname 3))
            else Except.error "BadGzipFile") := by
      unfold extract_gzip
      rw [if_neg (not_not_intro hsuf), if_neg (by simp [h7, h8])]
    by_cases hm : f.gzip_magic = true
    · simp [handle_archive, hz, ht, hg, hm]
    · simp [handle_archive, hz, ht, hg, hm]

/-- C7 witness: a content-gzip file without a `.gz` name goes down the
plain-file path. -/
theorem claim_C7_witness :
    handle_archive ⟨"data.bin", false, false, true, [], []⟩ ["root"]
      = ArchiveOutcome.plainFile :=
  (claim_C7 ⟨"data.bin", false, false, true, [], []⟩ ["root"]).2.2.1 rfl rfl
    (Or.inl (by decide))
